import Mathlib

/-!
Shallow embedding of the scrolls chain-indexing pipeline core
(block buffer, enrich stage with UTXO index and undo rings, reducer
fan-out, daemon entry point) together with proofs checking the
natural-language specification against the code.

Conventions:
* byte strings are `List Nat`;
* the embedded sled store is an association list, with the sled
  operations (`get`, `insert`, `remove`, `first`, `get_gt`, `get_lt`,
  batches) defined by explicit key comparison so that they match sled's
  ordered-map semantics regardless of the physical list order;
* machine integers carry no overflow in the ranges exercised here, so
  `u64`/`usize` become `Nat` and `i64` becomes `Int`;
* external crates (CBOR codec, hashing, bech32) are modelled as
  explicit parameters or concrete injective stand-ins, marked at each
  use site.
-/

namespace Scrolls

/-- Byte strings: keys of the embedded sled trees. -/
abbrev Key := List Nat

/-- Byte strings: values of the embedded sled trees. -/
abbrev Val := List Nat

/-- Lexicographic byte-wise order on keys, the order sled uses. -/
def keyLt : Key → Key → Bool
  | [], [] => false
  | [], _ :: _ => true
  | _ :: _, [] => false
  | a :: as, b :: bs => if a < b then true else if b < a then false else keyLt as bs

/-- Decimal digit run of `n`, most significant digit first, without the
leading-zero case (`decAux fuel 0 = []`).  Fuel-based so that the kernel
can evaluate it. -/
def decAux : Nat → Nat → List Nat
  | 0, _ => []
  | fuel + 1, n => if n = 0 then [] else decAux fuel (n / 10) ++ [n % 10]

/-- ASCII bytes of the decimal rendering of `n`, as produced by
`u64::to_string` in the source (`"0"` for zero). -/
def decStr (n : Nat) : Val :=
  if n = 0 then [48] else (decAux n n).map (· + 48)

/-- Embedded sled tree: an association list of key/value pairs. -/
abbrev Store := List (Key × Val)

namespace Store

/-- Lookup (`sled::Db::get`). -/
def get : Store → Key → Option Val
  | [], _ => none
  | (k', v) :: rest, k => if k' = k then some v else get rest k

/-- Order-respecting upsert (`sled::Db::insert`). -/
def insert : Store → Key → Val → Store
  | [], k, v => [(k, v)]
  | (k', v') :: rest, k, v =>
    if keyLt k k' then (k, v) :: (k', v') :: rest
    else if k = k' then (k, v) :: rest
    else (k', v') :: insert rest k v

/-- Key removal (`sled::Db::remove`, the returned prior value is read
separately with `get` where the source uses it). -/
def erase : Store → Key → Store
  | [], _ => []
  | (k', v) :: rest, k => if k' = k then erase rest k else (k', v) :: erase rest k

/-- Entry with the smallest key (`sled::Db::first`). -/
def first : Store → Option (Key × Val)
  | [] => none
  | e :: rest =>
    match first rest with
    | none => some e
    | some m => if keyLt m.1 e.1 then some m else some e

/-- Smallest entry with key strictly greater than `k` (`sled::Db::get_gt`). -/
def get_gt : Store → Key → Option (Key × Val)
  | [], _ => none
  | e :: rest, k =>
    match get_gt rest k with
    | none => if keyLt k e.1 then some e else none
    | some m => if keyLt k e.1 && keyLt e.1 m.1 then some e else some m

/-- Largest entry with key strictly smaller than `k` (`sled::Db::get_lt`). -/
def get_lt : Store → Key → Option (Key × Val)
  | [], _ => none
  | e :: rest, k =>
    match get_lt rest k with
    | none => if keyLt e.1 k then some e else none
    | some m => if keyLt e.1 k && keyLt m.1 e.1 then some e else some m

end Store

/-- One sled batch operation: `some v` is an insert, `none` a remove. -/
abbrev BatchOp := Key × Option Val

/-- A sled batch: the operations in the order they were added. -/
abbrev Batch := List BatchOp

/-- Atomic batch application (`sled::Db::apply_batch`): later operations
on a key override earlier ones, matching sled. -/
def Store.applyBatch (s : Store) (b : Batch) : Store :=
  b.foldl (fun acc op =>
    match op.2 with
    | some v => acc.insert op.1 v
    | none => acc.erase op.1) s

/-- Chain point (`pallas Point`). -/
inductive Point where
  | origin
  | specific (slot : Nat) (hash : List Nat)
deriving DecidableEq, Repr

/-- The slot of a point (`Point::slot_or_default`). -/
def Point.slotOrDefault : Point → Nat
  | .origin => 0
  | .specific slot _ => slot

/-! ## Block buffer (`src/crosscut/historic.rs`, `BufferBlocks`)

The struct carries the sled handle, a cached depth (`db_depth`,
`Option<usize>` in the source, always `Some` once opened, hence `Nat`
here) and the in-memory rollback queue `queue: Vec<Vec<u8>>` of keys. -/

structure BufferBlocks where
  db : Store
  db_depth : Nat
  queue : List Key
deriving DecidableEq, Repr

/-- `BufferBlocks::db_depth_up`.  The source computes a new depth and
returns it; the caller discards the result and `self.db_depth` is never
assigned, which the embedding mirrors by making this a pure function of
the state. -/
def db_depth_up (self : BufferBlocks) : Nat :=
  if self.db_depth > 0 then self.db_depth + 1 else self.db_depth

/-- `BufferBlocks::db_depth_down`; as with `db_depth_up` the result is
discarded by the caller and the field is never written. -/
def db_depth_down (self : BufferBlocks) : Nat :=
  if self.db_depth > 0 then self.db_depth - 1 else self.db_depth

/-- `BufferBlocks::drop_old_block_if_buffer_max`: when the cached depth
exceeds 50000, remove the entry `sled` reports as first (smallest key in
byte order) and report whether something was dropped. -/
def drop_old_block_if_buffer_max (self : BufferBlocks) : BufferBlocks × Bool :=
  if self.db_depth > 50000 then
    match self.db.first with
    | some (k, _) => ({ self with db := self.db.erase k }, true)
    | none => (self, false)
  else (self, false)

/-- `BufferBlocks::insert_block`: write `slot.to_string()` ↦ bytes, then
run the depth bookkeeping whose results the source discards. -/
def insert_block (self : BufferBlocks) (point : Point) (block : Val) : BufferBlocks :=
  let key := decStr point.slotOrDefault
  let self := { self with db := self.db.insert key block }
  let _up := db_depth_up self
  let res := drop_old_block_if_buffer_max self
  let self := res.1
  let _down := if res.2 then db_depth_down self else self.db_depth
  self

/-- `BufferBlocks::get_block_at_point`. -/
def get_block_at_point (self : BufferBlocks) (point : Point) : Option Val :=
  self.db.get (decStr point.slotOrDefault)

/-- Loop body of `BufferBlocks::get_rollback_range`: repeatedly take
`get_gt last_seen_slot`, record the value and queue the key for the
removal batch.  The keys strictly increase, so `db.length` iterations of
fuel suffice; the removal batch is only applied after the loop, exactly
as in the source. -/
def get_rollback_range_go (db : Store) :
    Nat → Key → List Val → List Key → List Val × List Key
  | 0, _, acc, clear => (acc, clear)
  | fuel + 1, lastSeen, acc, clear =>
    match db.get_gt lastSeen with
    | none => (acc, clear)
    | some (k, v) => get_rollback_range_go db fuel k (acc ++ [v]) (clear ++ [k])

/-- `BufferBlocks::get_rollback_range`: read the block at the target
slot (empty bytes when absent), push it first, then collect every entry
with a byte-wise greater key in ascending order, delete those entries
from the store, and return the collected blocks. -/
def get_rollback_range (self : BufferBlocks) (from_ : Point) : List Val × BufferBlocks :=
  let slot := decStr from_.slotOrDefault
  let current_block : Val :=
    match self.db.get slot with
    | none => []
    | some value => value
  let res := get_rollback_range_go self.db self.db.length slot [current_block] []
  (res.1, { self with db := res.2.foldl Store.erase self.db })

/-- `BufferBlocks::enqueue_rollback_batch`: despite its name it only
computes `get_rollback_range` and returns the blocks; nothing is pushed
onto `self.queue`. -/
def enqueue_rollback_batch (self : BufferBlocks) (from_ : Point) : List Val × BufferBlocks :=
  let blocks := get_rollback_range self from_
  blocks

/-- `BufferBlocks::rollback_pop`: `Vec::pop` takes the queue's last
element; `sled::Db::remove` returns the prior value of that key. -/
def rollback_pop (self : BufferBlocks) : Option Val × BufferBlocks :=
  match self.queue.getLast? with
  | none => (none, self)
  | some popped =>
    (self.db.get popped,
      { self with db := self.db.erase popped, queue := self.queue.dropLast })

/-- `BufferBlocks::rollback_queue_len`. -/
def rollback_queue_len (self : BufferBlocks) : Nat :=
  self.queue.length

/-- The buffer interaction of `Worker::on_rollback`'s out-of-window
branch (`sources/n2n/chainsync.rs` lines 105-119):
`self.blocks.enqueue_rollback_batch(point);` with the returned batch
discarded.  (The branch additionally reads the buffer tip to reposition
the in-memory window, which does not touch the buffer state.) -/
def on_rollback_out_of_scope (blocks : BufferBlocks) (point : Point) : BufferBlocks :=
  (enqueue_rollback_batch blocks point).2

/-! ## Logical block model

`pallas` decodes raw CBOR into `MultiEraBlock`/`MultiEraTx`; the decoder
is an external crate, so the embedding works on the decoded view and
treats decoding as a parameter where a stage performs it. -/

/-- Transaction input/output reference (`pallas OutputRef`). -/
structure OutputRef where
  txHash : List Nat
  index : Nat
deriving DecidableEq, Repr

/-- Rendering of an output reference used as UTXO-index key: the
`format!("{}#{}", hash, idx)` / `OutputRef::to_string` byte string
(`35` is ASCII `#`). -/
def refKey (r : OutputRef) : Key :=
  r.txHash ++ [35] ++ decStr r.index

/-- Shelley-era address shapes the reducers distinguish; the bech32
renderings produced by the external crate are carried as the stored
strings. -/
inductive Address where
  | shelley (base : String) (stake : Option String)
  | byron (repr : String)
  | stakeAddr (repr : String)
deriving DecidableEq, Repr

/-- Decoded transaction output (`pallas MultiEraOutput`): the logical
fields the reducers read plus `raw`, the CBOR encoding
(`MultiEraOutput::encode`) that the enrich stage stores. -/
structure Output where
  address : Address
  lovelace_amount : Nat
  non_ada_assets : List (String × String × Int)
  raw : Val
deriving DecidableEq, Repr

/-- Decoded transaction (`pallas MultiEraTx`): `requires` is the input
set resolved during enrichment (`tx.requires()`), `consumes` the spent
inputs (`tx.consumes()`), `produces` the indexed outputs, `mint` the
policy/asset/quantity triples of `tx.mint()`. -/
structure Tx where
  hash : List Nat
  era : Nat
  produces : List (Nat × Output)
  consumes : List OutputRef
  requires : List OutputRef
  mint : List (String × List (String × Int))
deriving DecidableEq, Repr

/-- Decoded block (`pallas MultiEraBlock`). -/
structure Block where
  slot : Nat
  hash : List Nat
  number : Nat
  txs : List Tx
deriving DecidableEq, Repr

/-! ## Enrich stage (`src/enrich/sled.rs`)

The worker owns three sled handles: the UTXO index `db`, the
`produced_ring` and the `consumed_ring`.  The accessors return
references into the worker, which the embedding renders as selectors
into the state; note that `db_ref_consumed_ring` in the source returns
`self.produced_ring` (enrich/sled.rs lines 256-261). -/

/-- Selector for one of the enrich worker's sled handles. -/
inductive DbSel where
  | main
  | producedRing
  | consumedRing
deriving DecidableEq, Repr

/-- The enrich worker's three stores. -/
structure EnrichState where
  db : Store
  produced_ring : Store
  consumed_ring : Store
deriving DecidableEq, Repr

/-- `Worker::db_ref_main`. -/
def db_ref_main : DbSel := .main

/-- `Worker::db_ref_produced_ring`. -/
def db_ref_produced_ring : DbSel := .producedRing

/-- `Worker::db_ref_consumed_ring` — the source body reads
`self.produced_ring.as_ref()`, so the selector is the produced ring. -/
def db_ref_consumed_ring : DbSel := .producedRing

/-- Read the store a selector points at. -/
def getDb (st : EnrichState) : DbSel → Store
  | .main => st.db
  | .producedRing => st.produced_ring
  | .consumedRing => st.consumed_ring

/-- Replace the store a selector points at. -/
def setDb (st : EnrichState) : DbSel → Store → EnrichState
  | .main, s => { st with db := s }
  | .producedRing, s => { st with produced_ring := s }
  | .consumedRing, s => { st with consumed_ring := s }

/-- `Worker::db_refs_all`: the triple `(db, produced_ring,
consumed_ring)` handed to every mutation in `work`. -/
def db_refs_all : DbSel × DbSel × DbSel :=
  (db_ref_main, db_ref_produced_ring, db_ref_consumed_ring)

/-- Stand-in for `minicbor::to_vec((era, body))` in `SledTxValue`'s
`TryInto<IVec>`: an injective encoding of the era/bytes pair (decimal
era, a `58` separator that is never a decimal digit, then the body). -/
def encodeTxVal (era : Nat) (body : Val) : Val :=
  decStr era ++ [58] ++ body

/-- Decimal parser for `decodeTxVal` (ASCII digits `48`-`57`). -/
def parseDec (digits : List Nat) : Option Nat :=
  digits.foldl (fun acc d =>
    match acc with
    | none => none
    | some n => if 48 ≤ d ∧ d ≤ 57 then some (n * 10 + (d - 48)) else none)
    (some 0)

/-- Stand-in for `SledTxValue`'s `TryFrom<IVec>` (CBOR decode of the
era/bytes pair); `none` models the decode error the source propagates. -/
def decodeTxVal (v : Val) : Option (Nat × Val) :=
  let era_digits := v.takeWhile (fun b => b ≠ 58)
  match v.dropWhile (fun b => b ≠ 58) with
  | [] => none
  | _ :: body =>
    match parseDec era_digits with
    | none => none
    | some era => some (era, body)

/-- Block context handed to the reducers: the mapping
`OutputRef → (era, raw output bytes)`.  Modelled from the spec: the
`BlockContext` type lives in `model.rs`, which is not part of the
sources, and §3 of the spec defines it as exactly this mapping. -/
abbrev BlockContext := List (Key × Nat × Val)

/-- Context lookup (`BlockContext::find_utxo` before output decoding). -/
def ctxGet : BlockContext → Key → Option (Nat × Val)
  | [], _ => none
  | (k', ec) :: rest, k => if k' = k then some ec else ctxGet rest k

/-- `BlockContext::import_ref_output`: map insert (upsert). -/
def import_ref_output : BlockContext → Key → Nat → Val → BlockContext
  | [], k, era, cbor => [(k, era, cbor)]
  | (k', ec) :: rest, k, era, cbor =>
    if k' = k then (k, era, cbor) :: rest
    else (k', ec) :: import_ref_output rest k era cbor

/-- `fetch_referenced_utxo`: look the reference up in the UTXO index and
decode the stored `(era, bytes)` value; a missing key is `Ok(None)`, a
malformed stored value is an error. -/
def fetch_referenced_utxo (db : Store) (utxo_ref : OutputRef) :
    Except Unit (Option (OutputRef × Nat × Val)) :=
  match db.get (refKey utxo_ref) with
  | some ivec =>
    match decodeTxVal ivec with
    | some (era, cbor) => .ok (some (utxo_ref, era, cbor))
    | none => .error ()
  | none => .ok none

/-- `Result`-collecting `collect()` over the parallel lookups; `rayon`
preserves input order, so the sequential fold is faithful. -/
def collectExcept : List (Except Unit α) → Except Unit (List α)
  | [] => .ok []
  | x :: rest =>
    match x with
    | .error e => .error e
    | .ok a =>
      match collectExcept rest with
      | .error e => .error e
      | .ok as => .ok (a :: as)

/-- Fold step of `par_fetch_referenced_utxos`: a hit is imported into
the context and bumps the match counter, a miss bumps the mismatch
counter. -/
def par_fetch_step (acc : BlockContext × Nat × Nat)
    (m : Option (OutputRef × Nat × Val)) : BlockContext × Nat × Nat :=
  match m with
  | some (key, era, cbor) =>
    (import_ref_output acc.1 (refKey key) era cbor, acc.2.1 + 1, acc.2.2)
  | none => (acc.1, acc.2.1, acc.2.2 + 1)

/-- `Worker::par_fetch_referenced_utxos`: gather `tx.requires()` over
the block, fetch each reference, then fold the results into the context
counting matches and mismatches. -/
def par_fetch_referenced_utxos (db : Store) (txs : List Tx) :
    Except Unit (BlockContext × Nat × Nat) :=
  let required := txs.flatMap Tx.requires
  match collectExcept (required.map (fetch_referenced_utxo db)) with
  | .error e => .error e
  | .ok ms => .ok (ms.foldl par_fetch_step ([], 0, 0))

/-- `Worker::insert_produced_utxos`: build the UTXO insert batch and the
produced-ring batch (`key ↦ IVec::default()`, i.e. empty bytes) in one
pass over the produced outputs, then apply each batch to its tree. -/
def insert_produced_utxos (dbSel ringSel : DbSel) (st : EnrichState)
    (txs : List Tx) : EnrichState :=
  let batches := txs.foldl (fun (acc : Batch × Batch) tx =>
    tx.produces.foldl (fun (acc2 : Batch × Batch) p =>
      let key := tx.hash ++ [35] ++ decStr p.1
      let value := encodeTxVal tx.era p.2.raw
      (acc2.1 ++ [(key, some value)], acc2.2 ++ [(key, some ([] : Val))]))
      acc) ([], [])
  let st := setDb st dbSel ((getDb st dbSel).applyBatch batches.1)
  setDb st ringSel ((getDb st ringSel).applyBatch batches.2)

/-- `Worker::remove_produced_utxos`: remove every produced key from the
UTXO index and from the produced ring. -/
def remove_produced_utxos (dbSel ringSel : DbSel) (st : EnrichState)
    (txs : List Tx) : EnrichState :=
  let batches := txs.foldl (fun (acc : Batch × Batch) tx =>
    tx.produces.foldl (fun (acc2 : Batch × Batch) p =>
      let key := tx.hash ++ [35] ++ decStr p.1
      (acc2.1 ++ [(key, none)], acc2.2 ++ [(key, none)]))
      acc) ([], [])
  let st := setDb st ringSel ((getDb st ringSel).applyBatch batches.2)
  setDb st dbSel ((getDb st dbSel).applyBatch batches.1)

/-- `Worker::remove_consumed_utxos`: for every consumed reference,
record the current UTXO-index value (when present) into the ring batch,
and remove the key from the index; reads happen before either batch is
applied, exactly as in the source loop. -/
def remove_consumed_utxos (dbSel ringSel : DbSel) (st : EnrichState)
    (txs : List Tx) : EnrichState :=
  let keys := txs.flatMap Tx.consumes
  let batches := keys.foldl (fun (acc : Batch × Batch) key =>
    let acc1 :=
      match (getDb st dbSel).get (refKey key) with
      | some current_value => acc.2 ++ [(refKey key, some current_value)]
      | none => acc.2
    (acc.1 ++ [(refKey key, none)], acc1)) ([], [])
  let st' := setDb st dbSel ((getDb st dbSel).applyBatch batches.1)
  setDb st' ringSel ((getDb st' ringSel).applyBatch batches.2)

/-- `Worker::replace_consumed_utxos`: walk the consumed references in
reverse, and for each one found in the (aliased) consumed ring, insert
the recorded prior value back into the UTXO index and delete the ring
entry; reads happen before either batch is applied. -/
def replace_consumed_utxos (dbSel ringSel : DbSel) (st : EnrichState)
    (txs : List Tx) : EnrichState :=
  let keys := txs.flatMap Tx.consumes
  let batches := keys.reverse.foldl (fun (acc : Batch × Batch) key =>
    match (getDb st ringSel).get (refKey key) with
    | some existing_value =>
      (acc.1 ++ [(refKey key, some existing_value)], acc.2 ++ [(refKey key, none)])
    | none => acc) ([], [])
  let st' := setDb st dbSel ((getDb st dbSel).applyBatch batches.1)
  setDb st' ringSel ((getDb st' ringSel).applyBatch batches.2)

/-! ## Ring pruning (`prune_tree` / `clean_dbs`)

The source loop evaluates `db.iter().next()` on every pass, which
constructs a fresh iterator each time and therefore always yields the
tree's first entry.  `prune_go` keeps the source's `count`,
`keys_to_drop` and `above_count` bookkeeping verbatim, with the
invariant first entry passed in once; the `None` arm performs the
source's `count = 1_000_000; continue` exit. -/

/-- Loop state evolution of `prune_tree`: returns the final
`(count, keys_to_drop, above_count)`.  Fuel bounds the number of `while`
condition checks; 1000001 checks always suffice. -/
def prune_go (firstKey : Option Key) :
    Nat → Nat → List Key → Nat → Nat × List Key × Nat
  | 0, count, keys, above => (count, keys, above)
  | fuel + 1, count, keys, above =>
    if count < 1000000 then
      match firstKey with
      | none => prune_go firstKey fuel 1000000 keys above
      | some k =>
        if count + 1 ≤ 500000 then prune_go firstKey fuel (count + 1) (keys ++ [k]) above
        else prune_go firstKey fuel (count + 1) keys (above + 1)
    else (count, keys, above)

/-- `prune_tree`: run the counting loop and, when `above_count` reaches
500000, drop the collected keys one `remove` at a time (the prepared
`drop_keys_batch` in the source is never applied). -/
def prune_tree (sel : DbSel) (st : EnrichState) : EnrichState :=
  let db := getDb st sel
  let r := prune_go (db.first.map (·.1)) 1000001 0 [] 0
  let keys_to_drop := r.2.1
  let above_count := r.2.2
  if above_count ≥ 500000 then setDb st sel (keys_to_drop.foldl Store.erase db)
  else st

/-- `Worker::clean_dbs`: flush the main db (a no-op here), then prune
the tree behind `db_ref_produced_ring` and the tree behind
`db_ref_consumed_ring`; because the latter selector also resolves to the
produced ring, the produced ring is pruned twice and the physical
consumed ring never. -/
def clean_dbs (st : EnrichState) : EnrichState :=
  let st := prune_tree db_refs_all.2.1 st
  prune_tree db_refs_all.2.2 st

/-! ## Enrich worker `work` -/

/-- Raw payload between source and enrich.  Modelled from the spec
(§4.1): the type lives in the missing `model.rs`;
`RawBlockPayload ∈ {RollForward(bytes), RollBack(bytes)}`. -/
inductive RawBlockPayload where
  | rollForward (cbor : Val)
  | rollBack (cbor : Val)
deriving DecidableEq, Repr

/-- Enriched payload between enrich and reducers, as constructed in
`enrich/sled.rs` (`roll_forward(cbor, ctx)` / `roll_back(cbor, ctx)`). -/
inductive EnrichedBlockPayload where
  | rollForward (cbor : Val) (ctx : BlockContext)
  | rollBack (cbor : Val) (ctx : BlockContext)
deriving DecidableEq, Repr

/-- Combined outcome of `MultiEraBlock::decode` and `apply_policy`:
`ok` for a decoded block, `skip` when the policy swallows the failure
(`Ok(None)`), `err` when it propagates (`Err`). -/
inductive DecodeResult where
  | ok (block : Block)
  | skip
  | err
deriving Repr

/-- Gasket work outcome, restricted to what `work` produces. -/
inductive WorkVerdict where
  | partial_
  | errored
deriving DecidableEq, Repr

/-- `Worker::work` of the enrich stage, with block decoding passed in as
`decode`.  Storage in the pure embedding cannot fail, so the `or_retry`
/ `or_restart` storage arms do not arise; decode errors follow the
source's branches: on roll-forward an error stops the stage and a skip
emits nothing, on roll-back empty bytes short-circuit (the `!is_empty`
guard), a decode error falls through to emit the payload with the
default context, and a skip returns without emitting. -/
def enrich_work (decode : Val → DecodeResult) (st : EnrichState)
    (msg : RawBlockPayload) : EnrichState × List EnrichedBlockPayload × WorkVerdict :=
  match msg with
  | .rollForward cbor =>
    match decode cbor with
    | .err => (st, [], .errored)
    | .skip => (st, [], .partial_)
    | .ok block =>
      let txs := block.txs
      let st1 := insert_produced_utxos db_refs_all.1 db_refs_all.2.1 st txs
      match par_fetch_referenced_utxos (getDb st1 db_refs_all.1) txs with
      | .error _ => (st1, [], .errored)
      | .ok fetched =>
        let st2 := remove_consumed_utxos db_refs_all.1 db_refs_all.2.2 st1 txs
        let st3 := clean_dbs st2
        (st3, [.rollForward cbor fetched.1], .partial_)
  | .rollBack cbor =>
    if cbor.isEmpty then (st, [.rollBack cbor []], .partial_)
    else
      match decode cbor with
      | .ok block =>
        let txs := block.txs
        let st1 := remove_produced_utxos db_refs_all.1 db_refs_all.2.1 st txs
        let st2 := replace_consumed_utxos db_refs_all.1 db_refs_all.2.2 st1 txs
        match par_fetch_referenced_utxos (getDb st2 db_refs_all.1) txs with
        | .error _ => (st2, [], .errored)
        | .ok fetched =>
          let st3 := clean_dbs st2
          (st3, [.rollBack cbor fetched.1], .partial_)
      | .skip => (st, [], .partial_)
      | .err => (st, [.rollBack cbor []], .partial_)

/-! ## Commands and sink

Modelled from the spec: `CRDTCommand` and the sink contract live in the
missing `model.rs` and in §3/§4.5 of the spec; only the variants the
embedded reducers emit are carried. -/

/-- State-mutation command for the sink. -/
inductive CRDTCommand where
  | blockStarting (slot : Nat) (hash : List Nat)
  | blockFinished (slot : Nat) (hash : List Nat)
  | anyWriteWins (key : String) (value : String)
  | hashCounter (key : String) (member : String) (delta : Int)
  | sortedSetAdd (key : String) (member : String) (delta : Int)
deriving DecidableEq, Repr

/-- `CRDTCommand::block_starting(&block)`: framing with the block's
point. -/
def block_starting (b : Block) : CRDTCommand :=
  .blockStarting b.slot b.hash

/-- `CRDTCommand::block_finished(&block)`. -/
def block_finished (b : Block) : CRDTCommand :=
  .blockFinished b.slot b.hash

/-- Signed counter map used by the sink model. -/
abbrev CounterMap := List ((String × String) × Int)

/-- Add `q` under `(k, f)`, inserting the entry when absent. -/
def counterAdd : CounterMap → String → String → Int → CounterMap
  | [], k, f, q => [((k, f), q)]
  | (kf, v) :: rest, k, f, q =>
    if kf = (k, f) then (kf, v + q) :: rest
    else (kf, v) :: counterAdd rest k f q

/-- Last-writer map used by the sink model. -/
abbrev KvMap := List (String × String)

/-- Overwrite `k` with `v`, inserting the entry when absent. -/
def kvPut : KvMap → String → String → KvMap
  | [], k, v => [(k, v)]
  | (k', v') :: rest, k, v =>
    if k' = k then (k, v) :: rest
    else (k', v') :: kvPut rest k v

/-- Downstream sink state.  Modelled from the spec (§4.5): hash-counter
fields and sorted-set scores accumulate signed deltas, any-write-wins
keys overwrite, framing commands carry no state here. -/
structure Sink where
  counters : CounterMap
  zsets : CounterMap
  kv : KvMap
deriving DecidableEq, Repr

/-- The empty sink. -/
def Sink.empty : Sink := ⟨[], [], []⟩

/-- Apply one command to the sink, per the §4.5 contract. -/
def apply_command (s : Sink) : CRDTCommand → Sink
  | .blockStarting _ _ => s
  | .blockFinished _ _ => s
  | .anyWriteWins k v => { s with kv := kvPut s.kv k v }
  | .hashCounter k f q => { s with counters := counterAdd s.counters k f q }
  | .sortedSetAdd k m q => { s with zsets := counterAdd s.zsets k m q }

/-- Apply a command stream in order. -/
def apply_commands (s : Sink) (cmds : List CRDTCommand) : Sink :=
  cmds.foldl apply_command s

/-! ## Reducer worker (`src/reducers/worker.rs`)

A reducer, as the worker drives it, is the dispatch signature
`reduce_block(&block, ctx, rollback, output)` of the closed `Reducer`
enum; the embedding quantifies over it as a function.  The worker's
output port accumulates sent commands in order. -/

/-- A registered reducer as the worker invokes it. -/
abbrev ReducerFn := Block → BlockContext → Bool → List CRDTCommand

/-- `Worker::reduce_block` (forward path), at the point where the block
has already decoded successfully: send `block_starting`, run every
reducer in registration order with `rollback = false`, send
`block_finished`. -/
def worker_reduce_block (reducers : List ReducerFn) (block : Block)
    (ctx : BlockContext) : List CRDTCommand :=
  let out : List CRDTCommand := [block_starting block]
  let out := reducers.foldl (fun acc r => acc ++ r block ctx false) out
  out ++ [block_finished block]

/-- `Worker::reduce_rollback_blocks`, at the point where every block has
decoded successfully: one `block_starting` for the last valid block,
then for each rolled-back block (with its context, or a default when the
context list is short) every reducer with `rollback = true`, then one
`block_finished` for the last valid block. -/
def worker_reduce_rollback_blocks (reducers : List ReducerFn)
    (last_valid_block : Block) (blocks : List Block)
    (ctxs : List BlockContext) : List CRDTCommand :=
  let out : List CRDTCommand := [block_starting last_valid_block]
  let out := blocks.enum.foldl (fun acc kb =>
    let context := ctxs.getD kb.1 []
    reducers.foldl (fun acc2 r => acc2 ++ r kb.2 context true) acc) out
  out ++ [block_finished last_valid_block]

/-! ## Multi-asset balance reducer (`src/reducers/multi_asset_balances.rs`)

External crate calls are parameters: `asset_fingerprint` wraps blake2b
and bech32, `slot_to_wallclock` the chain parameters, `decode_output`
the CBOR decoding inside `BlockContext::find_utxo`.  The reducer's
`config.key_prefix` is `None`, giving the `"soa-wallet"` default used
throughout.  Rust `HashMap` iteration order is unspecified; the
association lists here iterate in insertion order, one of the admitted
orders, and the sink effect of the emitted commands is
order-independent. -/

/-- External helpers of the balance reducer. -/
structure ReducerExt where
  asset_fingerprint : String → String → Option String
  slot_to_wallclock : Nat → Nat
  decode_output : Val → Option Output

/-- `Reducer::stake_or_address_from_address`: a delegated Shelley
address yields its stake address, anything else its own rendering. -/
def stake_or_address_from_address : Address → String
  | .shelley _ (some stake) => stake
  | .shelley base none => base
  | .byron r => r
  | .stakeAddr r => r

/-- `ctx.find_utxo(ref)` as the reducers use it: context lookup plus
output decoding. -/
def find_utxo (ext : ReducerExt) (ctx : BlockContext) (r : OutputRef) :
    Option Output :=
  match ctxGet ctx (refKey r) with
  | none => none
  | some ec => ext.decode_output ec.2

/-- Nested tally update:
`map.entry(k1).or_insert(new).entry(k2).or_insert(0) += q`. -/
def tallyAdd : List (String × List (String × Int)) → String → String → Int →
    List (String × List (String × Int))
  | [], k1, k2, q => [(k1, counterAddFlat [] k2 q)]
  | (k, inner) :: rest, k1, k2, q =>
    if k = k1 then (k, counterAddFlat inner k2 q) :: rest
    else (k, inner) :: tallyAdd rest k1 k2 q
where
  /-- Flat tally update: `entry(k).or_insert(0) += q`. -/
  counterAddFlat : List (String × Int) → String → Int → List (String × Int)
    | [], k, q => [(k, q)]
    | (k', v) :: rest, k, q =>
      if k' = k then (k', v + q) :: rest
      else (k', v) :: counterAddFlat rest k q

/-- Nested owner-list update:
`map.entry(policy).or_insert(new).entry(fp).or_insert(vec).push(pair)`. -/
def ownersPush :
    List (String × List (String × List (String × Int))) → String → String →
    (String × Int) → List (String × List (String × List (String × Int)))
  | [], policy, fp, pair => [(policy, [(fp, [pair])])]
  | (k, inner) :: rest, policy, fp, pair =>
    if k = policy then (k, innerPush inner fp pair) :: rest
    else (k, inner) :: ownersPush rest policy fp pair
where
  /-- Push into the per-fingerprint vector, inserting it when absent. -/
  innerPush : List (String × List (String × Int)) → String → (String × Int) →
      List (String × List (String × Int))
    | [], fp, pair => [(fp, [pair])]
    | (k', vs) :: rest, fp, pair =>
      if k' = fp then (k', vs ++ [pair]) :: rest
      else (k', vs) :: innerPush rest fp pair

/-- `Reducer::calculate_address_asset_balance_offsets`: tally every
native asset with the sign chosen by `spending`, then add the (already
signed) lovelace under the `"lovelace"` pseudo-fingerprint. -/
def calculate_address_asset_balance_offsets (ext : ReducerExt)
    (address : String) (lovelace : Int)
    (assets : List (String × String × Int)) (spending : Bool) :
    List (String × List (String × Int)) ×
      List (String × List (String × List (String × Int))) :=
  let maps := assets.foldl (fun acc asset =>
    let policy_id := asset.1
    let asset_name := asset.2.1
    let quantity := asset.2.2
    match ext.asset_fingerprint policy_id asset_name with
    | some fingerprint =>
      if fingerprint ≠ "" then
        let adjusted_quality : Int := if spending then -quantity else quantity
        (tallyAdd acc.1 address fingerprint adjusted_quality,
          ownersPush acc.2 policy_id fingerprint (address, adjusted_quality))
      else acc
    | none => acc) (([], []))
  (tallyAdd maps.1 address "lovelace" lovelace, maps.2)

/-- `Reducer::reconcile_asset_movement`: one `HashCounter` per
address/fingerprint tally, then per policy/fingerprint/owner one
`SortedSetAdd` and one `HashCounter`, all under the `"soa-wallet"`
default key prefix. -/
def reconcile_asset_movement
    (fingerprint_tallies : List (String × List (String × Int)))
    (policy_asset_owners :
      List (String × List (String × List (String × Int)))) :
    List CRDTCommand :=
  let pfx := "soa-wallet"
  let tallyMsgs := fingerprint_tallies.foldl (fun acc soaq =>
    soaq.2.foldl (fun acc2 fq =>
      acc2 ++ [CRDTCommand.hashCounter (pfx ++ "." ++ soaq.1) fq.1 fq.2]) acc) []
  policy_asset_owners.foldl (fun acc pa =>
    pa.2.foldl (fun acc2 fs =>
      fs.2.foldl (fun acc3 soaq =>
        acc3 ++
          [CRDTCommand.sortedSetAdd (pfx ++ "." ++ pa.1 ++ ".assets") fs.1 soaq.2,
            CRDTCommand.hashCounter (pfx ++ "." ++ pa.1 ++ "." ++ fs.1) soaq.1 soaq.2])
        acc2) acc) tallyMsgs

/-- `Reducer::process_asset_movement`: sign the lovelace by `spending`,
compute the offsets, reconcile them into commands, and close with the
`AnyWriteWins` last-activity stamp. -/
def process_asset_movement (ext : ReducerExt) (soa : String)
    (lovelace : Nat) (assets : List (String × String × Int))
    (spending : Bool) (slot : Nat) : List CRDTCommand :=
  let adjusted_lovelace : Int :=
    if spending then -(lovelace : Int) else (lovelace : Int)
  let maps := calculate_address_asset_balance_offsets ext soa
    adjusted_lovelace assets spending
  reconcile_asset_movement maps.1 maps.2 ++
    [CRDTCommand.anyWriteWins ("soa-wallet.last-activity." ++ soa)
      (toString (ext.slot_to_wallclock slot))]

/-- `Reducer::process_received`: movement of a produced output, with
`spending = false`. -/
def process_received (ext : ReducerExt) (meo : Output) (slot : Nat) :
    List CRDTCommand :=
  process_asset_movement ext (stake_or_address_from_address meo.address)
    meo.lovelace_amount meo.non_ada_assets false slot

/-- `Reducer::process_spent`: movement of a consumed output resolved
through the block context, with `spending = true`; an unresolved
reference contributes nothing. -/
def process_spent (ext : ReducerExt) (mei : OutputRef) (ctx : BlockContext)
    (slot : Nat) : List CRDTCommand :=
  match find_utxo ext ctx mei with
  | some spent_output =>
    process_asset_movement ext
      (stake_or_address_from_address spent_output.address)
      spent_output.lovelace_amount spent_output.non_ada_assets true slot
  | none => []

/-- `Reducer::process_minted_or_burned`: aggregate mint quantities per
policy and fingerprint, then emit one `SortedSetAdd` per aggregate. -/
def process_minted_or_burned (ext : ReducerExt)
    (mint : List (String × List (String × Int))) : List CRDTCommand :=
  let supply := mint.foldl (fun acc pa =>
    pa.2.foldl (fun acc2 aq =>
      match ext.asset_fingerprint pa.1 aq.1 with
      | some fingerprint => tallyAdd acc2 pa.1 fingerprint aq.2
      | none => acc2) acc) []
  supply.foldl (fun acc pa =>
    pa.2.foldl (fun acc2 fq =>
      acc2 ++ [CRDTCommand.sortedSetAdd ("soa-wallet." ++ pa.1) fq.1 fq.2]) acc) []

/-- `multi_asset_balances::Reducer::reduce_block`: per transaction,
mint processing, then every consumed input, then every produced output.
The method signature carries no direction flag. -/
def mab_reduce_block (ext : ReducerExt) (block : Block)
    (ctx : BlockContext) : List CRDTCommand :=
  let slot := block.slot
  block.txs.foldl (fun acc tx =>
    let acc := acc ++ process_minted_or_burned ext tx.mint
    let acc := tx.consumes.foldl (fun acc2 c =>
      acc2 ++ process_spent ext c ctx slot) acc
    tx.produces.foldl (fun acc2 p =>
      acc2 ++ process_received ext p.2 slot) acc) []

/-- Dispatch of the `Reducer` enum for the multi-asset-balance variant.
Modelled from the spec: `reducers/mod.rs` is missing from the sources,
but the worker calls `reduce_block(&block, ctx, rollback, output)` and
the inherent method above accepts no `rollback` argument, so the
dispatch necessarily drops the flag. -/
def mab_dispatch (ext : ReducerExt) : ReducerFn :=
  fun block ctx _rollback => mab_reduce_block ext block ctx

/-! ## Daemon entry point (`src/bin/scrolls/main.rs`) -/

/-- Result of `main`: process exit code and `stderr` lines. -/
structure MainExit where
  code : Nat
  stderr : List String
deriving DecidableEq, Repr

/-- `main`: dispatch the sole `Daemon` subcommand, bind its result to
`m`, and return `Ok(())` — the `eprintln!`/`process::exit(1)` block is
commented out in the source, so the daemon result is discarded and the
process always exits 0 with nothing printed. -/
def main_fn (daemon_run : Except String Unit) : MainExit :=
  let _m := daemon_run
  { code := 0, stderr := [] }

/-! ## Concrete inputs used by the verification theorems -/

/-- A single produced output with raw encoding `[1]`. -/
def c1Out : Output := ⟨.byron "a", 0, [], [1]⟩

/-- A transaction producing one output and consuming nothing. -/
def c1Tx : Tx := ⟨[99], 0, [(0, c1Out)], [], [], []⟩

/-- A block holding just `c1Tx`. -/
def c1Block : Block := ⟨7, [9], 1, [c1Tx]⟩

/-- Decoder mapping the raw bytes `[1]` to `c1Block`. -/
def c1Decode : Val → DecodeResult :=
  fun c => if c = [1] then .ok c1Block else .err

/-- Enrich state whose produced ring already holds two unrelated keys. -/
def c1State0 : EnrichState := ⟨[], [([97], []), ([98], [])], []⟩

/-- Block buffer holding blocks at slots 5, 6 and 7 with an empty
rollback queue. -/
def c2St : BufferBlocks :=
  ⟨[(decStr 5, [5]), (decStr 6, [6]), (decStr 7, [7])], 3, []⟩

/-- Externals for the balance reducer: no native assets are involved, so
the fingerprint function is never consulted. -/
def c3Ext : ReducerExt := ⟨fun _ _ => none, fun s => s, fun _ => none⟩

/-- An output of 100 lovelace to a Byron address. -/
def c3Out : Output := ⟨.byron "addr", 100, [], []⟩

/-- A block with one transaction producing `c3Out`. -/
def c3Block : Block := ⟨10, [1], 1, [⟨[2], 0, [(0, c3Out)], [], [], []⟩]⟩

/-- Enrich state with a one-entry produced ring. -/
def c6St : EnrichState := ⟨[], [([107], [])], []⟩

/-- Last valid block of a rollback batch, at slot 5. -/
def c7Lv : Block := ⟨5, [1], 1, []⟩

/-- Rolled-back block at slot 6. -/
def c7B : Block := ⟨6, [2], 2, []⟩

/-- A reference that is in no UTXO index. -/
def c9Ref : OutputRef := ⟨[3], 0⟩

/-- A transaction consuming (and thus requiring) only `c9Ref`. -/
def c9Tx : Tx := ⟨[2], 0, [], [c9Ref], [c9Ref], []⟩

/-- A block holding just `c9Tx`. -/
def c9Block : Block := ⟨1, [9], 1, [c9Tx]⟩

/-- Decoder mapping every payload to `c9Block`. -/
def c9Decode : Val → DecodeResult := fun _ => .ok c9Block

/-! ## Supporting lemmas -/

/-- Folding a reducer-style append accumulates the mapped outputs after
the seed. -/
theorem foldl_append_eq {α β : Type} (l : List α) (f : α → List β)
    (out : List β) :
    l.foldl (fun acc x => acc ++ f x) out = out ++ (l.map f).flatten := by
  induction l generalizing out with
  | nil => simp
  | cons x xs ih => simp [ih, List.append_assoc]

/-- `insert_block` with a depth-zero cache performs the insert and
nothing else: the depth guard cannot fire and the depth stays zero. -/
theorem insert_block_depth_zero (st : BufferBlocks) (p : Point) (b : Val)
    (h : st.db_depth = 0) :
    insert_block st p b =
      ⟨st.db.insert (decStr p.slotOrDefault) b, 0, st.queue⟩ := by
  simp [insert_block, drop_old_block_if_buffer_max, h]

/-! ## C10 -/

/-- C10: a `RollBack` payload with empty raw bytes leaves the UTXO
index, the produced ring and the consumed ring unchanged, and the stage
still emits a `RollBack` enriched payload with the empty bytes and the
default (empty) block context. -/
theorem rollback_empty_bytes_noop (decode : Val → DecodeResult)
    (st : EnrichState) :
    enrich_work decode st (.rollBack []) =
      (st, [.rollBack [] []], .partial_) := rfl

/-! ## C8 -/

/-- C8: when, at the concrete failing input, the daemon run returns an
error, `main` discards it (the error-printing and `exit(1)` block is
commented out in the source): the process exits 0 with nothing printed
on stderr, contradicting the claimed exit code 1 and cause-chain
output. -/
theorem main_swallows_daemon_error (e : String) :
    main_fn (.error e) = { code := 0, stderr := [] } ∧
      (main_fn (.error e)).code ≠ 1 := by
  exact ⟨rfl, by simp [main_fn]⟩

/-! ## C5 -/

/-- C5 counterexample: the keys actually written are decimal ASCII
strings, which are neither fixed-width nor ordered like the slots —
slot 9 encodes to a longer-ordered key than slot 10. -/
theorem slot_key_order_mismatch :
    9 < 10 ∧ keyLt (decStr 10) (decStr 9) = true ∧
      (decStr 9).length ≠ (decStr 10).length := by decide

/-- C5 (amended): the key written for a block is the slot's decimal
ASCII rendering — inserting into a fresh buffer stores exactly
`decStr slot ↦ bytes`. -/
theorem insert_block_key_is_decimal_string (p : Point) (b : Val) :
    (insert_block ⟨[], 0, []⟩ p b).db = [(decStr p.slotOrDefault, b)] := rfl

/-! ## C2 -/

/-- C2: `enqueue_rollback_batch` never pushes anything onto the rollback
queue (for every state the queue is returned untouched), and at the
concrete failing input — buffered slots 5, 6, 7, rollback to slot 5 —
the batch is computed (ascending, including the target block) and the
greater entries are deleted from the buffer, yet the queue stays empty
and `rollback_pop` finds nothing to emit. -/
theorem rollback_batch_never_enqueued :
    (∀ (st : BufferBlocks) (p : Point),
      (enqueue_rollback_batch st p).2.queue = st.queue ∧
        (on_rollback_out_of_scope st p).queue = st.queue) ∧
    (enqueue_rollback_batch c2St (.specific 5 [])).2.queue = [] ∧
    rollback_pop (enqueue_rollback_batch c2St (.specific 5 [])).2 =
      (none, (enqueue_rollback_batch c2St (.specific 5 [])).2) ∧
    (enqueue_rollback_batch c2St (.specific 5 [])).1 = [[5], [6], [7]] ∧
    (enqueue_rollback_batch c2St (.specific 5 [])).2.db = [(decStr 5, [5])] := by
  refine ⟨fun st p => ?_, by decide, by decide, by decide, by decide⟩
  constructor <;>
    simp [on_rollback_out_of_scope, enqueue_rollback_batch, get_rollback_range]

/-! ## C4 -/

/-- C4: cap enforcement never happens on a buffer opened empty — the
depth computed by `db_depth_up`/`db_depth_down` is discarded by
`insert_block`, so `db_depth` is invariant under every insert, and from
the empty buffer any number of inserts reduces to plain store inserts
with no eviction, leaving all `N` entries in place. -/
theorem buffer_cap_never_enforced :
    (∀ (st : BufferBlocks) (p : Point) (b : Val),
      (insert_block st p b).db_depth = st.db_depth) ∧
    (∀ ps : List (Point × Val),
      ps.foldl (fun st pb => insert_block st pb.1 pb.2) ⟨[], 0, []⟩ =
        ⟨ps.foldl (fun d pb => d.insert (decStr pb.1.slotOrDefault) pb.2) [],
          0, []⟩) := by
  constructor
  · intro st p b
    simp only [insert_block, drop_old_block_if_buffer_max]
    split
    · split <;> rfl
    · rfl
  · have aux : ∀ (ps : List (Point × Val)) (st : BufferBlocks),
        st.db_depth = 0 →
        ps.foldl (fun st pb => insert_block st pb.1 pb.2) st =
          ⟨ps.foldl (fun d pb => d.insert (decStr pb.1.slotOrDefault) pb.2) st.db,
            0, st.queue⟩ := by
      intro ps
      induction ps with
      | nil => intro st h; cases st; simp_all
      | cons pb rest ih =>
        intro st h
        simp only [List.foldl_cons, insert_block_depth_zero st pb.1 pb.2 h]
        exact ih _ rfl
    intro ps
    exact aux ps ⟨[], 0, []⟩ rfl

/-! ## Pruning closed forms -/

/-- The prune loop exits as soon as the count reaches the bound. -/
theorem prune_go_exit (firstKey : Option Key) (fuel : Nat) (keys : List Key)
    (above : Nat) :
    prune_go firstKey fuel 1000000 keys above = (1000000, keys, above) := by
  cases fuel <;> simp [prune_go]

/-- Counting phase of the prune loop above the push threshold: every
remaining pass only bumps `above_count`. -/
theorem prune_go_hi (k : Key) :
    ∀ (fuel count : Nat) (keys : List Key) (above : Nat),
      1000000 ≤ count + fuel → 500000 ≤ count → count ≤ 1000000 →
      prune_go (some k) fuel count keys above =
        (1000000, keys, above + (1000000 - count)) := by
  intro fuel
  induction fuel with
  | zero =>
    intro count keys above h1 h2 h3
    have hc : count = 1000000 := by omega
    subst hc
    simp [prune_go]
  | succ f ih =>
    intro count keys above h1 h2 h3
    by_cases hlt : count < 1000000
    · rw [prune_go]
      simp only [hlt, if_true]
      have hpush : ¬ count + 1 ≤ 500000 := by omega
      simp only [hpush, if_false]
      rw [ih (count + 1) keys (above + 1) (by omega) (by omega) (by omega)]
      congr 2
      omega
    · have hc : count = 1000000 := by omega
      subst hc
      simp [prune_go]

/-- Push phase of the prune loop below the threshold: the first entry's
key is appended until the threshold, after which exactly 500000 passes
bump `above_count`. -/
theorem prune_go_lo (k : Key) :
    ∀ (fuel count : Nat) (keys : List Key) (above : Nat),
      1000000 ≤ count + fuel → count ≤ 500000 →
      prune_go (some k) fuel count keys above =
        (1000000, keys ++ List.replicate (500000 - count) k, above + 500000) := by
  intro fuel
  induction fuel with
  | zero =>
    intro count keys above h1 h2
    exact absurd h1 (by omega)
  | succ f ih =>
    intro count keys above h1 h2
    have hlt : count < 1000000 := by omega
    rw [prune_go]
    simp only [hlt, if_true]
    by_cases hpush : count + 1 ≤ 500000
    · simp only [hpush, if_true]
      rw [ih (count + 1) (keys ++ [k]) above (by omega) (by omega)]
      have hrep : (500000 - count) = (500000 - (count + 1)) + 1 := by omega
      rw [hrep, List.replicate_succ]
      simp [List.append_assoc]
    · simp only [hpush, if_false]
      have hc : count = 500000 := by omega
      subst hc
      rw [prune_go_hi k f 500001 keys (above + 1) (by omega) (by omega) (by omega)]
      refine Prod.ext rfl (Prod.ext ?_ ?_)
      · show keys = keys ++ List.replicate (500000 - 500000) k
        rw [Nat.sub_self, List.replicate_zero, List.append_nil]
      · show above + 1 + (1000000 - 500001) = above + 500000
        omega

/-- Erasing a key twice equals erasing it once. -/
theorem erase_idem (s : Store) (k : Key) :
    (s.erase k).erase k = s.erase k := by
  induction s with
  | nil => rfl
  | cons e rest ih =>
    by_cases h : e.1 = k <;> simp [Store.erase, h, ih]

/-- Folding `erase` over a nonempty run of one key erases it once. -/
theorem foldl_erase_replicate (n : Nat) (s : Store) (k : Key) :
    (List.replicate (n + 1) k).foldl Store.erase s = s.erase k := by
  have aux : ∀ (m : Nat) (t : Store),
      (List.replicate m k).foldl Store.erase (t.erase k) = t.erase k := by
    intro m
    induction m with
    | zero => intro t; rfl
    | succ i ih =>
      intro t
      simp only [List.replicate_succ, List.foldl_cons, erase_idem]
      exact ih t
  simp only [List.replicate_succ, List.foldl_cons]
  exact aux n s

/-- Closed form of `prune_tree`: an empty tree is untouched; otherwise
the entry sled reports first — and only it — is removed, regardless of
how many entries the tree holds. -/
theorem prune_tree_eq (sel : DbSel) (st : EnrichState) :
    prune_tree sel st =
      (match (getDb st sel).first with
        | none => st
        | some e => setDb st sel ((getDb st sel).erase e.1)) := by
  simp only [prune_tree]
  cases hf : (getDb st sel).first with
  | none =>
    have hgo : prune_go none 1000001 0 [] 0 = (1000000, [], 0) := by
      have h1 : prune_go none 1000001 0 [] 0 =
          prune_go none 1000000 1000000 [] 0 := rfl
      rw [h1, prune_go_exit]
    rw [show Option.map (fun x : Key × Val => x.1) none = none from rfl, hgo]
    simp
  | some e =>
    rw [show Option.map (fun x : Key × Val => x.1) (some e) = some e.1 from rfl]
    rw [prune_go_lo e.1 1000001 0 [] 0 (by omega) (by omega)]
    simp only [List.nil_append, Nat.zero_add, Nat.sub_zero, ge_iff_le, le_refl,
      if_true]
    rw [show (500000 : Nat) = 499999 + 1 from rfl, foldl_erase_replicate]

/-- `clean_dbs` unfolds to two prunes of the produced ring: both
`db_ref_produced_ring` and `db_ref_consumed_ring` resolve to it. -/
theorem clean_dbs_eq (st : EnrichState) :
    clean_dbs st = prune_tree .producedRing (prune_tree .producedRing st) := rfl

/-! ## C6 -/

/-- C6: pruning is not gated on any cap and is not an oldest-suffix
batch drop — a produced ring holding a single entry (far below the
500000/1000000 thresholds in the code and below any configured cap) is
still pruned on `clean_dbs`, because the loop re-creates its iterator
each pass and therefore counts the first entry a million times. -/
theorem prune_tree_prunes_below_cap :
    c6St.produced_ring.length = 1 ∧ clean_dbs c6St ≠ c6St ∧
      clean_dbs c6St = ⟨[], [], []⟩ := by
  have h : clean_dbs c6St = ⟨[], [], []⟩ := by
    rw [clean_dbs_eq, prune_tree_eq, prune_tree_eq]
    decide
  exact ⟨rfl, by rw [h]; decide, h⟩

/-! ## C1 -/

/-- C1: applying `c1Block` forward and then rolling it back does not
return all three stores to their prior byte-for-byte contents: the UTXO
index and the physical consumed ring do return (the latter because the
consumed-ring accessor aliases the produced ring and is never written),
but the produced ring comes back empty, having lost its two pre-existing
entries to the per-block pruning, so the claimed undo symmetry fails. -/
theorem enrich_forward_rollback_not_byte_exact :
    ((enrich_work c1Decode
        (enrich_work c1Decode c1State0 (.rollForward [1])).1
        (.rollBack [1])).1.db = c1State0.db) ∧
    ((enrich_work c1Decode
        (enrich_work c1Decode c1State0 (.rollForward [1])).1
        (.rollBack [1])).1.consumed_ring = c1State0.consumed_ring) ∧
    ((enrich_work c1Decode
        (enrich_work c1Decode c1State0 (.rollForward [1])).1
        (.rollBack [1])).1.produced_ring ≠ c1State0.produced_ring) := by
  have hfwd : enrich_work c1Decode c1State0 (.rollForward [1]) =
      (clean_dbs ⟨[([99, 35, 48], [48, 58, 1])],
        [([97], []), ([98], []), ([99, 35, 48], [])], []⟩,
        [.rollForward [1] []], .partial_) := rfl
  have hc1 : clean_dbs ⟨[([99, 35, 48], [48, 58, 1])],
      [([97], []), ([98], []), ([99, 35, 48], [])], []⟩ =
      ⟨[([99, 35, 48], [48, 58, 1])], [([99, 35, 48], [])], []⟩ := by
    rw [clean_dbs_eq, prune_tree_eq, prune_tree_eq]
    decide
  have h1 : (enrich_work c1Decode c1State0 (.rollForward [1])).1 =
      ⟨[([99, 35, 48], [48, 58, 1])], [([99, 35, 48], [])], []⟩ := by
    rw [hfwd, hc1]
  rw [h1]
  have hbwd : enrich_work c1Decode
      ⟨[([99, 35, 48], [48, 58, 1])], [([99, 35, 48], [])], []⟩
      (.rollBack [1]) =
      (clean_dbs ⟨[], [], []⟩, [.rollBack [1] []], .partial_) := rfl
  have hc2 : clean_dbs (⟨[], [], []⟩ : EnrichState) = ⟨[], [], []⟩ := by
    rw [clean_dbs_eq, prune_tree_eq, prune_tree_eq]
    decide
  rw [hbwd, hc2]
  refine ⟨rfl, rfl, by decide⟩

/-! ## C3 -/

/-- C3 counterexample: a block producing one 100-lovelace output,
reduced forward and then undone by the multi-asset-balance reducer,
leaves the sink with a doubled counter instead of the pre-block (empty)
sink state. -/
theorem mab_forward_undo_not_identity :
    apply_commands Sink.empty
        (mab_dispatch c3Ext c3Block [] false ++ mab_dispatch c3Ext c3Block [] true) ≠
      Sink.empty := by decide

/-- C3 (amended): the worker passes the rollback flag, but the
multi-asset-balance reducer's `reduce_block` accepts no direction, so
its undo command stream is identical to its forward stream, and applying
forward followed by undo equals applying the forward deltas twice rather
than restoring the pre-block sink state. -/
theorem mab_undo_equals_forward (ext : ReducerExt) (b : Block)
    (ctx : BlockContext) (s : Sink) :
    mab_dispatch ext b ctx true = mab_dispatch ext b ctx false ∧
    apply_commands s (mab_dispatch ext b ctx false ++ mab_dispatch ext b ctx true) =
      apply_commands (apply_commands s (mab_dispatch ext b ctx false))
        (mab_dispatch ext b ctx false) := by
  refine ⟨rfl, ?_⟩
  simp only [apply_commands, List.foldl_append]
  rfl

/-! ## C7 -/

/-- C7 counterexample: rolling back the slot-6 block `c7B` (with one
registered reducer) emits a stream framed by the slot-5 last-valid
block's point only — no `BlockStarting` carrying the processed block's
own point appears, contradicting the per-block framing claim. -/
theorem rollback_framing_uses_last_valid_point :
    worker_reduce_rollback_blocks [fun _ _ _ => []] c7Lv [c7B] [[]] =
      [block_starting c7Lv, block_finished c7Lv] ∧
    block_starting c7B ∉
      worker_reduce_rollback_blocks [fun _ _ _ => []] c7Lv [c7B] [[]] ∧
    block_starting c7B ≠ block_starting c7Lv := by decide

/-- C7 (amended): on the forward path each block's command stream is
exactly `BlockStarting(point)`, the reducers' outputs concatenated in
registration order, and `BlockFinished(point)` with the same point; on
the rollback path a single such frame carrying the last valid block's
point surrounds the concatenated undo outputs of all rolled-back
blocks. -/
theorem worker_stream_framing_shape (reducers : List ReducerFn)
    (b lv : Block) (ctx : BlockContext) (blocks : List Block)
    (ctxs : List BlockContext) :
    worker_reduce_block reducers b ctx =
      [block_starting b] ++ (reducers.map (fun r => r b ctx false)).flatten ++
        [block_finished b] ∧
    worker_reduce_rollback_blocks reducers lv blocks ctxs =
      [block_starting lv] ++
        (blocks.enum.map (fun kb =>
          (reducers.map (fun r => r kb.2 (ctxs.getD kb.1 []) true)).flatten)).flatten ++
        [block_finished lv] := by
  constructor
  · simp [worker_reduce_block, foldl_append_eq]
  · simp [worker_reduce_rollback_blocks, foldl_append_eq]

/-! ## C9 supporting lemmas -/

/-- An `ok` element of a successfully collected list lands in the
output. -/
theorem collectExcept_mem_ok {α : Type} {l : List (Except Unit α)}
    {out : List α} (h : collectExcept l = .ok out) {a : α}
    (ha : Except.ok a ∈ l) : a ∈ out := by
  induction l generalizing out with
  | nil => cases ha
  | cons x rest ih =>
    cases ha with
    | head =>
      unfold collectExcept at h
      cases hr : collectExcept rest with
      | error e => rw [hr] at h; simp at h
      | ok as =>
        rw [hr] at h
        simp only [Except.ok.injEq] at h
        subst h
        exact List.mem_cons_self _ _
    | tail _ hmem =>
      unfold collectExcept at h
      cases x with
      | error e => simp at h
      | ok b =>
        cases hr : collectExcept rest with
        | error e => rw [hr] at h; simp at h
        | ok as =>
          rw [hr] at h
          simp only [Except.ok.injEq] at h
          subst h
          exact List.mem_cons_of_mem _ (ih hr hmem)

/-- Every element of a successfully collected output stems from an `ok`
element of the input list. -/
theorem collectExcept_ok_sources {α : Type} {l : List (Except Unit α)}
    {out : List α} (h : collectExcept l = .ok out) {a : α}
    (ha : a ∈ out) : Except.ok a ∈ l := by
  induction l generalizing out with
  | nil =>
    unfold collectExcept at h
    simp only [Except.ok.injEq] at h
    subst h
    cases ha
  | cons x rest ih =>
    unfold collectExcept at h
    cases x with
    | error e => simp at h
    | ok b =>
      cases hr : collectExcept rest with
      | error e => rw [hr] at h; simp at h
      | ok as =>
        rw [hr] at h
        simp only [Except.ok.injEq] at h
        subst h
        cases ha with
        | head => exact List.mem_cons_self _ _
        | tail _ hmem => exact List.mem_cons_of_mem _ (ih hr hmem)

/-- Importing under a different key does not change a lookup. -/
theorem ctxGet_import_of_ne (ctx : BlockContext) (k K : Key) (e : Nat)
    (c : Val) (hne : k ≠ K) :
    ctxGet (import_ref_output ctx k e c) K = ctxGet ctx K := by
  induction ctx with
  | nil => simp [import_ref_output, ctxGet, hne]
  | cons ent rest ih =>
    by_cases hk : ent.1 = k
    · simp only [import_ref_output, hk, if_true]
      simp [ctxGet, hne, hk]
    · simp only [import_ref_output, hk, if_false]
      by_cases hK : ent.1 = K <;> simp [ctxGet, hK, ih]

/-- The mismatch counter never decreases along the fetch fold. -/
theorem par_fetch_fold_mm_mono (ms : List (Option (OutputRef × Nat × Val))) :
    ∀ acc : BlockContext × Nat × Nat,
      acc.2.2 ≤ (ms.foldl par_fetch_step acc).2.2 := by
  induction ms with
  | nil => intro acc; exact le_refl _
  | cons x rest ih =>
    intro acc
    refine le_trans ?_ (ih (par_fetch_step acc x))
    cases x with
    | none => simp [par_fetch_step, Nat.le_succ]
    | some t =>
      obtain ⟨r, e, c⟩ := t
      simp [par_fetch_step]

/-- A missing reference in the fetch results bumps the mismatch counter
at least once. -/
theorem par_fetch_fold_mm_of_none (ms : List (Option (OutputRef × Nat × Val))) :
    ∀ acc : BlockContext × Nat × Nat, none ∈ ms →
      acc.2.2 + 1 ≤ (ms.foldl par_fetch_step acc).2.2 := by
  induction ms with
  | nil => intro acc h; cases h
  | cons x rest ih =>
    intro acc h
    cases h with
    | head =>
      simp only [List.foldl_cons]
      refine le_trans ?_ (par_fetch_fold_mm_mono rest (par_fetch_step acc none))
      simp [par_fetch_step]
    | tail _ hmem =>
      simp only [List.foldl_cons]
      refine le_trans ?_ (ih (par_fetch_step acc x) hmem)
      have hstep : acc.2.2 ≤ (par_fetch_step acc x).2.2 := by
        cases x with
        | none => simp [par_fetch_step, Nat.le_succ]
        | some t =>
          obtain ⟨r, e, c⟩ := t
          simp [par_fetch_step]
      omega

/-- If no hit in the fetch results carries the key `K`, the folded
context has no entry at `K`. -/
theorem par_fetch_fold_ctx_none (ms : List (Option (OutputRef × Nat × Val)))
    (K : Key) :
    ∀ acc : BlockContext × Nat × Nat, ctxGet acc.1 K = none →
      (∀ x ∈ ms, ∀ r e c, x = some (r, e, c) → refKey r ≠ K) →
      ctxGet (ms.foldl par_fetch_step acc).1 K = none := by
  induction ms with
  | nil => intro acc h _; exact h
  | cons x rest ih =>
    intro acc h hall
    simp only [List.foldl_cons]
    refine ih (par_fetch_step acc x) ?_
      (fun y hy => hall y (List.mem_cons_of_mem _ hy))
    cases x with
    | none => exact h
    | some t =>
      obtain ⟨r, e, c⟩ := t
      have hne : refKey r ≠ K := hall _ (List.mem_cons_self _ _) r e c rfl
      show ctxGet (import_ref_output acc.1 (refKey r) e c) K = none
      rw [ctxGet_import_of_ne acc.1 (refKey r) K e c hne]
      exact h

/-! ## C9 -/

/-- C9: a consumed (required) reference that is absent from the UTXO
index at resolution time is not fatal: the reference is left out of the
block context, the mismatch counter is bumped, and the forward `work`
path still emits exactly the enriched roll-forward payload with that
context. -/
theorem missing_ref_nonfatal (decode : Val → DecodeResult)
    (st : EnrichState) (cbor : Val) (block : Block) (db : Store)
    (r : OutputRef) (ctx : BlockContext) (m mm : Nat)
    (hdb : db = getDb (insert_produced_utxos db_refs_all.1 db_refs_all.2.1
      st block.txs) db_refs_all.1)
    (hdec : decode cbor = .ok block)
    (hreq : r ∈ block.txs.flatMap Tx.requires)
    (hmiss : db.get (refKey r) = none)
    (hok : par_fetch_referenced_utxos db block.txs = .ok (ctx, m, mm)) :
    ctxGet ctx (refKey r) = none ∧ 1 ≤ mm ∧
      (enrich_work decode st (.rollForward cbor)).2 =
        ([.rollForward cbor ctx], .partial_) := by
  have hok' := hok
  simp only [par_fetch_referenced_utxos] at hok'
  cases hcol : collectExcept
      ((block.txs.flatMap Tx.requires).map (fetch_referenced_utxo db)) with
  | error e => rw [hcol] at hok'; simp at hok'
  | ok ms =>
    rw [hcol] at hok'
    simp only [Except.ok.injEq] at hok'
    have hfetch : fetch_referenced_utxo db r = .ok none := by
      unfold fetch_referenced_utxo
      rw [hmiss]
    have hin : Except.ok (none : Option (OutputRef × Nat × Val)) ∈
        (block.txs.flatMap Tx.requires).map (fetch_referenced_utxo db) := by
      have hmem := List.mem_map_of_mem (fetch_referenced_utxo db) hreq
      rw [hfetch] at hmem
      exact hmem
    have hnone : (none : Option (OutputRef × Nat × Val)) ∈ ms :=
      collectExcept_mem_ok hcol hin
    have hkeys : ∀ x ∈ ms, ∀ key e c, x = some (key, e, c) →
        refKey key ≠ refKey r := by
      intro x hx key e c hxeq
      have hsrc : Except.ok x ∈
          (block.txs.flatMap Tx.requires).map (fetch_referenced_utxo db) :=
        collectExcept_ok_sources hcol hx
      obtain ⟨r2, _hr2, hfe⟩ := List.mem_map.mp hsrc
      subst hxeq
      unfold fetch_referenced_utxo at hfe
      cases hget : db.get (refKey r2) with
      | none =>
        rw [hget] at hfe
        simp at hfe
      | some ivec =>
        rw [hget] at hfe
        simp only at hfe
        cases hdec2 : decodeTxVal ivec with
        | none =>
          rw [hdec2] at hfe
          simp at hfe
        | some ec =>
          obtain ⟨era2, cbor2⟩ := ec
          rw [hdec2] at hfe
          simp only [Except.ok.injEq, Option.some.injEq, Prod.mk.injEq] at hfe
          obtain ⟨hk2, -, -⟩ := hfe
          subst hk2
          intro hEq
          rw [hEq, hmiss] at hget
          cases hget
    refine ⟨?_, ?_, ?_⟩
    · have h := par_fetch_fold_ctx_none ms (refKey r) ([], 0, 0) rfl hkeys
      rw [hok'] at h
      exact h
    · have h := par_fetch_fold_mm_of_none ms ([], 0, 0) hnone
      rw [hok'] at h
      simpa using h
    · rw [hdb] at hok
      simp only [enrich_work, hdec, hok]

/-- C9 witness: the concrete block `c9Block` consumes the reference
`c9Ref`, which is absent from the empty index; the theorem applies and
yields the empty context, one mismatch, and the emitted payload. -/
theorem missing_ref_nonfatal_witness :
    ctxGet [] (refKey c9Ref) = none ∧ 1 ≤ 1 ∧
      (enrich_work c9Decode ⟨[], [], []⟩ (.rollForward [1])).2 =
        ([.rollForward [1] []], .partial_) :=
  missing_ref_nonfatal c9Decode ⟨[], [], []⟩ [1] c9Block [] c9Ref [] 0 1
    rfl rfl (by decide) rfl rfl

end Scrolls
